import Mathlib

/-!
Verification of the rust-todo task tracker core.

This file gives a shallow embedding of the core data model and operations of
the repository (src/task.rs, src/context.rs, src/store.rs, src/main.rs) and
proves the specification claims about them.

Modelling conventions:
* Rust `HashMap<String, Context>` is modelled as an association list
  `List (String × Context)`; the operations used by the source
  (`contains_key`, `get`, `insert`, `remove`, `len`, iteration) are embedded
  as the corresponding first-occurrence association-list operations.  All
  states produced by the embedded API keep keys distinct, matching the map.
* Rust methods taking `&mut self` and returning `Result<T>` are embedded as
  functions `ContextManager → args → Except AppError T × ContextManager`
  returning both the result and the post-state, so that "fails without
  partial mutation" is a provable statement rather than a modelling artifact.
* File input and output is modelled at the data level: a file is either
  missing, malformed (not valid JSON for `StorageData`), or holds a parsed
  `StorageData` value.  serde round-tripping of a `StorageData` value through
  JSON text is the identity on the data and is not re-modelled here.
-/

deriving instance DecidableEq for Except

namespace RustTodo

/-- A single quote character, used when assembling the error-message strings
that the source builds with `format!`. -/
def sq : String := (Char.ofNat 39).toString

/-! ## Data model: src/task.rs -/

/-- Time horizon of a task, `task.rs`.  Variant order gives the derived
`Ord`: `ShortTerm < MidTerm < LongTerm`. -/
inductive TimeHorizon where
  | ShortTerm
  | MidTerm
  | LongTerm
deriving DecidableEq

/-- Priority of a task, `task.rs`.  Variant order gives the derived `Ord`:
`Low < Medium < High`. -/
inductive Priority where
  | Low
  | Medium
  | High
deriving DecidableEq

/-- Discriminant of `TimeHorizon`, the order used by the derived `Ord`. -/
def TimeHorizon.idx : TimeHorizon → Nat
  | .ShortTerm => 0
  | .MidTerm => 1
  | .LongTerm => 2

/-- Discriminant of `Priority` (the source declares `Low = 0`, `Medium = 1`,
`High = 2`). -/
def Priority.idx : Priority → Nat
  | .Low => 0
  | .Medium => 1
  | .High => 2

/-- A task, `task.rs`. -/
structure Task where
  id : String
  description : String
  time_horizon : TimeHorizon
  priority : Priority
  completed : Bool
  created_at : String
deriving DecidableEq

/-! ## Errors: src/error.rs -/

/-- The application error type `AppError`, `error.rs`.  The IO and JSON
variants wrap foreign errors; here they carry the message string. -/
inductive AppError where
  | TaskNotFound (msg : String)
  | ContextNotFound (msg : String)
  | ContextAlreadyExists (name : String)
  | InvalidTimeHorizon (raw : String)
  | InvalidPriority (raw : String)
  | CannotDeleteLastContext
  | IoError (msg : String)
  | JsonError (msg : String)
  | InvalidDataFormat (msg : String)
deriving DecidableEq

/-! ## Contexts: src/context.rs -/

/-- A context, `context.rs`: a named list of tasks in insertion order. -/
structure Context where
  name : String
  tasks : List Task
deriving DecidableEq

/-- `Context::new`, `context.rs`. -/
def Context.new (name : String) : Context :=
  { name := name, tasks := [] }

/-- `Context::add_task`, `context.rs`: push at the end of the task vector. -/
def Context.add_task (c : Context) (t : Task) : Context :=
  { c with tasks := c.tasks ++ [t] }

/-- The comparison used by `Context::sorted_tasks`, `context.rs`:
`sort_by_key(|task| (task.time_horizon, Reverse(task.priority)))`, i.e. the
lexicographic order on the pair of the horizon (ascending) and the priority
(descending). -/
def Task.sortLe (a b : Task) : Prop :=
  a.time_horizon.idx < b.time_horizon.idx ∨
    (a.time_horizon.idx = b.time_horizon.idx ∧ b.priority.idx ≤ a.priority.idx)

instance : DecidableRel Task.sortLe := fun a b => by
  unfold Task.sortLe; exact inferInstance

instance : IsTotal Task Task.sortLe :=
  ⟨by intro a b; unfold Task.sortLe; omega⟩

instance : IsTrans Task Task.sortLe :=
  ⟨by intro a b c; unfold Task.sortLe; omega⟩

/-- `Context::sorted_tasks`, `context.rs`: a stable sort of the task list by
`(time_horizon, Reverse(priority))`.  Rust `sort_by_key` is a stable sort;
stable sorting by a total preorder has a unique result, so the stable
`insertionSort` computes the same list.  The receiver is taken by `&self` in
the source, so the underlying task list is left unchanged. -/
def Context.sorted_tasks (c : Context) : List Task :=
  c.tasks.insertionSort Task.sortLe

/-! ### Association-list operations standing for `HashMap<String, Context>` -/

/-- `HashMap::contains_key`. -/
def containsKey (l : List (String × Context)) (k : String) : Bool :=
  l.any fun p => p.1 = k

/-- `HashMap::get`. -/
def lookupKey : List (String × Context) → String → Option Context
  | [], _ => none
  | p :: rest, k => if p.1 = k then some p.2 else lookupKey rest k

/-- `HashMap::remove` (first occurrence of the key). -/
def removeKey : List (String × Context) → String → List (String × Context)
  | [], _ => []
  | p :: rest, k => if p.1 = k then rest else p :: removeKey rest k

/-- `HashMap::insert`: replace the value at the key if present, otherwise
append the binding. -/
def insertKV : List (String × Context) → String → Context → List (String × Context)
  | [], k, v => [(k, v)]
  | p :: rest, k, v => if p.1 = k then (k, v) :: rest else p :: insertKV rest k v

/-- Update the value stored at a key in place (`HashMap::get_mut` followed by
mutation); no change if the key is absent. -/
def updateValue : List (String × Context) → String → (Context → Context) → List (String × Context)
  | [], _, _ => []
  | p :: rest, k, f => if p.1 = k then (p.1, f p.2) :: rest else p :: updateValue rest k f

/-! ## ContextManager: src/context.rs -/

/-- `ContextManager`, `context.rs`. -/
structure ContextManager where
  contexts : List (String × Context)
  active_context : String
deriving DecidableEq

/-- `ContextManager::new`, `context.rs`: a single context named `default`,
which is active. -/
def ContextManager.new : ContextManager :=
  { contexts := [("default", Context.new "default")]
    active_context := "default" }

/-- `ContextManager::create_context`, `context.rs`.  The pair returns the
`Result` together with the post-state of the receiver. -/
def ContextManager.create_context (m : ContextManager) (name : String) :
    Except AppError Unit × ContextManager :=
  if containsKey m.contexts name then
    (.error (.ContextAlreadyExists name), m)
  else
    (.ok (), { m with contexts := m.contexts ++ [(name, Context.new name)] })

/-- `ContextManager::switch_context`, `context.rs`. -/
def ContextManager.switch_context (m : ContextManager) (name : String) :
    Except AppError Unit × ContextManager :=
  if containsKey m.contexts name then
    (.ok (), { m with active_context := name })
  else
    (.error (.ContextNotFound name), m)

/-- The message of the error returned by `delete_context` when the argument
is the active context (`context.rs`): the `ContextNotFound` kind is reused
with a custom message. -/
def cannotDeleteActiveMsg (name : String) : String :=
  "Cannot delete active context " ++ sq ++ name ++ sq ++
    ". Switch to another context first."

/-- `ContextManager::delete_context`, `context.rs`.  The checks run in source
order: existence, then last-context, then active-context; only then is the
entry removed. -/
def ContextManager.delete_context (m : ContextManager) (name : String) :
    Except AppError Unit × ContextManager :=
  if containsKey m.contexts name = false then
    (.error (.ContextNotFound name), m)
  else if m.contexts.length ≤ 1 then
    (.error .CannotDeleteLastContext, m)
  else if m.active_context = name then
    (.error (.ContextNotFound (cannotDeleteActiveMsg name)), m)
  else
    (.ok (), { m with contexts := removeKey m.contexts name })

/-- The `ContextManager` invariants stated in the spec and in the doc comment
of `ContextManager` in `context.rs`: the context map is never empty, and the
active context is always a present key. -/
def managerInv (m : ContextManager) : Prop :=
  m.contexts ≠ [] ∧ containsKey m.contexts m.active_context = true

/-! ### Association-list lemmas -/

theorem containsKey_iff {l : List (String × Context)} {k : String} :
    containsKey l k = true ↔ ∃ p, p ∈ l ∧ p.1 = k := by
  simp [containsKey, List.any_eq_true]

theorem containsKey_append {l₁ l₂ : List (String × Context)} {k : String} :
    containsKey (l₁ ++ l₂) k = (containsKey l₁ k || containsKey l₂ k) := by
  simp [containsKey]

theorem length_removeKey {l : List (String × Context)} {k : String}
    (h : containsKey l k = true) : (removeKey l k).length + 1 = l.length := by
  induction l with
  | nil => simp [containsKey] at h
  | cons p rest ih =>
    by_cases hp : p.1 = k
    · simp [removeKey, hp]
    · have h' : containsKey rest k = true := by
        rcases containsKey_iff.mp h with ⟨q, hq, hqk⟩
        rcases List.mem_cons.mp hq with hq | hq
        · exact absurd (hq ▸ hqk) hp
        · exact containsKey_iff.mpr ⟨q, hq, hqk⟩
      have := ih h'
      simp [removeKey, hp]
      omega

theorem containsKey_removeKey {l : List (String × Context)} {a k : String}
    (h : containsKey l a = true) (hne : a ≠ k) :
    containsKey (removeKey l k) a = true := by
  induction l with
  | nil => simp [containsKey] at h
  | cons p rest ih =>
    rcases containsKey_iff.mp h with ⟨q, hq, hqa⟩
    rcases List.mem_cons.mp hq with hq | hq
    · have hp : ¬p.1 = k := by rw [← hq]; exact hqa ▸ hne
      refine containsKey_iff.mpr ⟨p, ?_, hq ▸ hqa⟩
      simp [removeKey, hp]
    · have h' : containsKey rest a = true := containsKey_iff.mpr ⟨q, hq, hqa⟩
      by_cases hp : p.1 = k
      · simpa [removeKey, hp] using h'
      · rcases containsKey_iff.mp (ih h') with ⟨q', hq', hq'a⟩
        refine containsKey_iff.mpr ⟨q', ?_, hq'a⟩
        simp [removeKey, hp, List.mem_cons]
        exact Or.inr hq'

/-! ## Claim C1 -/

/-- **C1.** The `ContextManager` invariants hold in every reachable state:
they hold of `ContextManager::new()`, and each of `create_context`,
`switch_context` and `delete_context` (for any argument) preserves them; when
a call returns an error the manager is left completely unchanged. -/
theorem claim_C1_manager_invariants :
    managerInv ContextManager.new ∧
    (∀ (m : ContextManager) (name : String), managerInv m →
      managerInv (m.create_context name).2 ∧
        ∀ e, (m.create_context name).1 = .error e → (m.create_context name).2 = m) ∧
    (∀ (m : ContextManager) (name : String), managerInv m →
      managerInv (m.switch_context name).2 ∧
        ∀ e, (m.switch_context name).1 = .error e → (m.switch_context name).2 = m) ∧
    (∀ (m : ContextManager) (name : String), managerInv m →
      managerInv (m.delete_context name).2 ∧
        ∀ e, (m.delete_context name).1 = .error e → (m.delete_context name).2 = m) := by
  refine ⟨?_, ?_, ?_, ?_⟩
  · constructor
    · simp [ContextManager.new]
    · simp [ContextManager.new, containsKey]
  · intro m name hm
    unfold ContextManager.create_context
    by_cases h : containsKey m.contexts name
    · simpa [h] using hm
    · simp only [h, Bool.false_eq_true, if_false, if_neg]
      refine ⟨⟨by simp, ?_⟩, by simp⟩
      simpa [containsKey_append] using Or.inl hm.2
  · intro m name hm
    unfold ContextManager.switch_context
    by_cases h : containsKey m.contexts name
    · simp only [h, if_true, if_pos]
      exact ⟨⟨hm.1, h⟩, by simp⟩
    · simpa [h] using hm
  · intro m name hm
    unfold ContextManager.delete_context
    by_cases h : containsKey m.contexts name
    · by_cases hlen : m.contexts.length ≤ 1
      · simpa [h, hlen] using hm
      · by_cases hact : m.active_context = name
        · simpa [h, hlen, hact] using hm
        · simp only [h, hlen, hact, Bool.true_eq_false, if_false, if_neg, if_true, if_pos]
          refine ⟨⟨?_, containsKey_removeKey hm.2 hact⟩, by simp⟩
          have := length_removeKey (l := m.contexts) (k := name) h
          have hpos : 0 < (removeKey m.contexts name).length := by omega
          exact List.ne_nil_of_length_pos hpos
    · simpa [h] using hm

/-- Witness for C1: `create_context` applied to the freshly constructed
manager with the name `work` keeps the invariants. -/
theorem claim_C1_manager_invariants_witness :
    managerInv (ContextManager.new.create_context "work").2 :=
  (claim_C1_manager_invariants.2.1 ContextManager.new "work"
    ⟨by simp [ContextManager.new], by simp [ContextManager.new, containsKey]⟩).1

/-! ## Partial-ID resolution: src/main.rs -/

/-- Rust `str::starts_with` (case-sensitive): the candidate is a prefix of
the character sequence of the string. -/
def strStartsWith (s pre : String) : Bool :=
  pre.data.isPrefixOf s.data

/-- The matching ids collected by `find_task_id_by_partial`, `main.rs`: the
ids of the tasks whose id starts with the candidate string (case-sensitive
prefix match), in task order. -/
def partialMatches (c : Context) (partial_id : String) : List String :=
  (c.tasks.filter fun t => strStartsWith t.id partial_id).map fun t => t.id

/-- The message of the ambiguous-id error built by `find_task_id_by_partial`,
`main.rs`. -/
def ambiguousMsg (partial_id : String) (ms : List String) : String :=
  "Ambiguous ID " ++ sq ++ partial_id ++ sq ++ " matches multiple tasks: " ++
    String.intercalate ", " ms

/-- `find_task_id_by_partial`, `main.rs`: resolve a candidate string to the
full id of the unique task whose id it prefixes. -/
def find_task_id_by_partial (c : Context) (partial_id : String) :
    Except AppError String :=
  match partialMatches c partial_id with
  | [] => .error (.TaskNotFound partial_id)
  | [x] => .ok x
  | x :: y :: rest => .error (.TaskNotFound (ambiguousMsg partial_id (x :: y :: rest)))

/-- **C2.** Partial-ID resolution trichotomy: with `ms` the ids of the tasks
whose id starts with `p` (case-sensitive), zero matches fail with
`TaskNotFound p`, a unique match returns that full id, and two or more
matches fail with a `TaskNotFound` whose message enumerates all matching full
ids joined by `", "`. -/
theorem claim_C2_partial_id_trichotomy (c : Context) (p : String) :
    (partialMatches c p = [] →
      find_task_id_by_partial c p = .error (.TaskNotFound p)) ∧
    (∀ x, partialMatches c p = [x] → find_task_id_by_partial c p = .ok x) ∧
    (2 ≤ (partialMatches c p).length →
      find_task_id_by_partial c p =
        .error (.TaskNotFound (ambiguousMsg p (partialMatches c p)))) := by
  refine ⟨?_, ?_, ?_⟩
  · intro h
    simp [ find_task_id_by_partial, h]
  · intro x h
    simp [ find_task_id_by_partial, h]
  · intro h
    rcases hm : partialMatches c p with _ | ⟨x, _ | ⟨y, rest⟩⟩
    · rw [hm] at h; simp at h
    · rw [hm] at h; simp at h
    · simp [ find_task_id_by_partial, hm]

/-- Witness for C2: on a context holding tasks with ids `abc123` and `abc999`,
the prefix `abc` is ambiguous and the error message lists both ids. -/
theorem claim_C2_partial_id_trichotomy_witness :
    find_task_id_by_partial
        (Context.mk "work"
          [Task.mk "abc123" "t1" .ShortTerm .Low false "",
           Task.mk "abc999" "t2" .ShortTerm .Low false ""]) "abc" =
      .error (.TaskNotFound (ambiguousMsg "abc" ["abc123", "abc999"])) :=
  (claim_C2_partial_id_trichotomy
      (Context.mk "work"
        [Task.mk "abc123" "t1" .ShortTerm .Low false "",
         Task.mk "abc999" "t2" .ShortTerm .Low false ""]) "abc").2.2 (by decide)

/-! ## Claims C5 and C6: delete_context error cases -/

/-- **C5, counterexample.**  The claim says `delete_context` on a manager with
exactly one context fails with `CannotDeleteLastContext` regardless of the
name argument.  The source checks key existence first, so an absent name on a
one-context manager yields `ContextNotFound` instead:
`ContextManager::new()` with the name `missing` is a concrete refutation. -/
theorem claim_C5_last_context_counterexample :
    ContextManager.new.contexts.length = 1 ∧
    (ContextManager.new.delete_context "missing").1 =
      .error (.ContextNotFound "missing") ∧
    (ContextManager.new.delete_context "missing").1 ≠
      .error .CannotDeleteLastContext := by
  refine ⟨rfl, ?_, ?_⟩ <;> decide

/-- **C5, amended.**  On a manager with exactly one context, `delete_context`
fails with `CannotDeleteLastContext` for every name that is present (i.e. the
sole context's key); for an absent name it fails with `ContextNotFound`; in
both cases the manager is left unchanged. -/
theorem claim_C5_last_context_amended (m : ContextManager) (name : String)
    (h1 : m.contexts.length = 1) :
    (containsKey m.contexts name = true →
      (m.delete_context name).1 = .error .CannotDeleteLastContext) ∧
    (containsKey m.contexts name = false →
      (m.delete_context name).1 = .error (.ContextNotFound name)) ∧
    (m.delete_context name).2 = m := by
  unfold ContextManager.delete_context
  by_cases h : containsKey m.contexts name
  · simp [h, h1]
  · simp [h]

/-- Witness for C5 (amended): deleting `default` from the fresh manager fails
with `CannotDeleteLastContext` and leaves it unchanged. -/
theorem claim_C5_last_context_amended_witness :
    (ContextManager.new.delete_context "default").1 =
        .error .CannotDeleteLastContext ∧
      (ContextManager.new.delete_context "default").2 = ContextManager.new :=
  ⟨(claim_C5_last_context_amended ContextManager.new "default" rfl).1 (by decide),
   (claim_C5_last_context_amended ContextManager.new "default" rfl).2.2⟩

/-- **C6.**  On a manager with at least two contexts (and the maintained
invariant that the active context is a present key), `delete_context` applied
to the active context's name always fails; the error reuses the
`ContextNotFound` kind with a custom message rather than a distinct kind, and
the contexts and the active context are unchanged. -/
theorem claim_C6_delete_active_context (m : ContextManager) (name : String)
    (hlen : 2 ≤ m.contexts.length)
    (hinv : containsKey m.contexts m.active_context = true)
    (hname : name = m.active_context) :
    (m.delete_context name).1 =
        .error (.ContextNotFound (cannotDeleteActiveMsg name)) ∧
      (m.delete_context name).2 = m := by
  subst hname
  unfold ContextManager.delete_context
  have hl : ¬m.contexts.length ≤ 1 := by omega
  simp [hinv, hl]

/-- Witness for C6: on a two-context manager with `work` active, deleting
`work` fails with the custom-message `ContextNotFound` and changes nothing. -/
theorem claim_C6_delete_active_context_witness :
    (ContextManager.mk
          [("default", Context.new "default"), ("work", Context.new "work")]
          "work").delete_context "work" =
      (.error (.ContextNotFound (cannotDeleteActiveMsg "work")),
        ContextManager.mk
          [("default", Context.new "default"), ("work", Context.new "work")]
          "work") := by
  have h := claim_C6_delete_active_context
    (ContextManager.mk
      [("default", Context.new "default"), ("work", Context.new "work")] "work")
    "work" (by decide) (by decide) rfl
  exact Prod.ext h.1 h.2

/-! ## Persistence: src/store.rs

The file system is modelled at the data level: a file is missing, malformed,
or holds a parsed `StorageData` value.  `Store::save` writes the serialized
`StorageData` through a temp-file-plus-rename; the resulting on-disk content
is the serialized data, modelled here as the `parsed` state.  serde
round-tripping of a `StorageData` value through JSON text is the identity on
the data. -/

/-- `StorageData`, `store.rs`: the on-disk projection of a manager plus a
version stamp. -/
structure StorageData where
  version : String
  contexts : List (String × Context)
  active_context : String
deriving DecidableEq

/-- `StorageData::new`, `store.rs`: stamps `version = "1.0.0"`. -/
def StorageData.new (contexts : List (String × Context))
    (active_context : String) : StorageData :=
  { version := "1.0.0", contexts := contexts, active_context := active_context }

/-- The observable content of a data file: absent, unparseable as
`StorageData` JSON, or a parsed `StorageData` value. -/
inductive FileState where
  | missing
  | malformed (raw : String)
  | parsed (data : StorageData)
deriving DecidableEq

/-- The message of the `InvalidDataFormat` error raised by `Store::load` and
`Store::import` when the active context is not a key of the context map. -/
def invalidActiveMsg (active : String) : String :=
  "Active context " ++ sq ++ active ++ sq ++ " does not exist in contexts"

/-- `Store::load`, `store.rs`: a missing file yields a fresh default manager;
a malformed file fails with the JSON parse error; a parsed file is validated
(the active context must be a key of the context map, else
`InvalidDataFormat` naming the bad value) and projected 1:1 into a
`ContextManager`. -/
def Store.load : FileState → Except AppError ContextManager
  | .missing => .ok ContextManager.new
  | .malformed raw => .error (.JsonError raw)
  | .parsed data =>
    if containsKey data.contexts data.active_context = false then
      .error (.InvalidDataFormat (invalidActiveMsg data.active_context))
    else
      .ok { contexts := data.contexts, active_context := data.active_context }

/-- `Store::save`, `store.rs`: wrap the manager into `StorageData` with
`version = "1.0.0"`, serialize, write to a temp file and rename it onto the
target; the resulting file content is the serialized data. -/
def Store.save (m : ContextManager) : FileState :=
  .parsed (StorageData.new m.contexts m.active_context)

/-- `Store::import`, `store.rs`: read, parse and validate exactly as `load`,
except that a missing file is an error (the I/O read fails) instead of a
fresh default manager. -/
def Store.importFrom : FileState → Except AppError ContextManager
  | .missing => .error (.IoError "No such file or directory")
  | .malformed raw => .error (.JsonError raw)
  | .parsed data =>
    if containsKey data.contexts data.active_context = false then
      .error (.InvalidDataFormat (invalidActiveMsg data.active_context))
    else
      .ok { contexts := data.contexts, active_context := data.active_context }

/-! ## Claim C3: save/load round-trip -/

/-- **C3.** For every manager satisfying the invariants, loading immediately
after saving succeeds and yields a manager with the same active context, the
same context names, and the same task list under each name. -/
theorem claim_C3_save_load_roundtrip (m : ContextManager)
    (hm : managerInv m) :
    ∃ m2, Store.load (Store.save m) = .ok m2 ∧
      m2.active_context = m.active_context ∧
      m2.contexts.map Prod.fst = m.contexts.map Prod.fst ∧
      ∀ k, lookupKey m2.contexts k = lookupKey m.contexts k := by
  refine ⟨⟨m.contexts, m.active_context⟩, ?_, rfl, rfl, fun _ => rfl⟩
  simp [Store.load, Store.save, StorageData.new, hm.2]

/-- Witness for C3 on a two-context manager with a task. -/
theorem claim_C3_save_load_roundtrip_witness :
    ∃ m2,
      Store.load
          (Store.save
            (ContextManager.mk
              [("default", Context.new "default"),
               ("work", Context.mk "work"
                 [Task.mk "id1" "write code" .ShortTerm .High false "2024"])]
              "work")) = .ok m2 ∧
        m2.active_context =
          (ContextManager.mk
            [("default", Context.new "default"),
             ("work", Context.mk "work"
               [Task.mk "id1" "write code" .ShortTerm .High false "2024"])]
            "work").active_context ∧
        m2.contexts.map Prod.fst =
          (ContextManager.mk
            [("default", Context.new "default"),
             ("work", Context.mk "work"
               [Task.mk "id1" "write code" .ShortTerm .High false "2024"])]
            "work").contexts.map Prod.fst ∧
        ∀ k, lookupKey m2.contexts k =
          lookupKey
            (ContextManager.mk
              [("default", Context.new "default"),
               ("work", Context.mk "work"
                 [Task.mk "id1" "write code" .ShortTerm .High false "2024"])]
              "work").contexts k :=
  claim_C3_save_load_roundtrip _ ⟨by decide, by decide⟩

/-! ## Claim C7: active-context validation on load and import -/

/-- **C7.** For every file that parses as `StorageData` but whose active
context is not a key of the context map, both `load` and `import` fail with
`InvalidDataFormat` naming the bad value; when the active context is a key,
both succeed (so no `InvalidDataFormat` error is raised). -/
theorem claim_C7_active_context_validation (d : StorageData) :
    (containsKey d.contexts d.active_context = false →
      Store.load (.parsed d) =
          .error (.InvalidDataFormat (invalidActiveMsg d.active_context)) ∧
        Store.importFrom (.parsed d) =
          .error (.InvalidDataFormat (invalidActiveMsg d.active_context))) ∧
    (containsKey d.contexts d.active_context = true →
      Store.load (.parsed d) =
          .ok ⟨d.contexts, d.active_context⟩ ∧
        Store.importFrom (.parsed d) =
          .ok ⟨d.contexts, d.active_context⟩) := by
  constructor <;> intro h <;>
    simp [Store.load, Store.importFrom, h]

/-- Witness for C7: a file whose active context `ghost` is not among its
context keys is rejected by both `load` and `import` with
`InvalidDataFormat` naming `ghost`. -/
theorem claim_C7_active_context_validation_witness :
    Store.load (.parsed (StorageData.mk "1.0.0"
          [("default", Context.new "default")] "ghost")) =
        .error (.InvalidDataFormat (invalidActiveMsg "ghost")) ∧
      Store.importFrom (.parsed (StorageData.mk "1.0.0"
          [("default", Context.new "default")] "ghost")) =
        .error (.InvalidDataFormat (invalidActiveMsg "ghost")) :=
  (claim_C7_active_context_validation
    (StorageData.mk "1.0.0" [("default", Context.new "default")] "ghost")).1
    (by decide)

/-! ## Claim C10: no key-versus-name validation on load and import -/

/-- **C10.** Neither `load` nor `import` validates that a context's `name`
field matches its map key: the well-formed input whose key `k` holds a
context whose `name` field is `other` is accepted by both, and the returned
manager still holds that context under key `k` with the mismatched name. -/
theorem claim_C10_no_name_key_validation :
    Store.load (.parsed (StorageData.mk "1.0.0"
          [("k", Context.mk "other" [])] "k")) =
        .ok ⟨[("k", Context.mk "other" [])], "k"⟩ ∧
      Store.importFrom (.parsed (StorageData.mk "1.0.0"
          [("k", Context.mk "other" [])] "k")) =
        .ok ⟨[("k", Context.mk "other" [])], "k"⟩ ∧
      lookupKey [("k", Context.mk "other" [])] "k" = some (Context.mk "other" []) ∧
      ("other" : String) ≠ "k" := by
  refine ⟨?_, ?_, ?_, ?_⟩ <;> decide

/-! ## Claim C4: sorted_tasks -/

/-- **C4.** `sorted_tasks` returns the tasks stably sorted by
`(time_horizon ascending, priority descending)`: the result is a permutation
of the task list, it is sorted by that key, tasks with equal horizon and
priority keep their original relative order, and on the four tasks
(Long,Low), (Short,Medium), (Mid,High), (Short,High) the result order is
(Short,High), (Short,Medium), (Mid,High), (Long,Low).  `sorted_tasks` takes
the context by shared reference, so the underlying task list is unchanged. -/
theorem claim_C4_sorted_tasks :
    (∀ c : Context,
      c.sorted_tasks.Perm c.tasks ∧ List.Sorted Task.sortLe c.sorted_tasks) ∧
    (∀ (c : Context) (a b : Task), a.time_horizon = b.time_horizon →
      a.priority = b.priority → List.Sublist [a, b] c.tasks →
      List.Sublist [a, b] c.sorted_tasks) ∧
    (Context.mk "work"
        [Task.mk "t1" "Long Low" .LongTerm .Low false "",
         Task.mk "t2" "Short Med" .ShortTerm .Medium false "",
         Task.mk "t3" "Mid High" .MidTerm .High false "",
         Task.mk "t4" "Short High" .ShortTerm .High false ""]).sorted_tasks =
      [Task.mk "t4" "Short High" .ShortTerm .High false "",
       Task.mk "t2" "Short Med" .ShortTerm .Medium false "",
       Task.mk "t3" "Mid High" .MidTerm .High false "",
       Task.mk "t1" "Long Low" .LongTerm .Low false ""] := by
  refine ⟨fun c => ⟨?_, ?_⟩, fun c a b hth hpr hsub => ?_, by decide⟩
  · exact List.perm_insertionSort Task.sortLe c.tasks
  · exact List.sorted_insertionSort Task.sortLe c.tasks
  · have hab : Task.sortLe a b := Or.inr ⟨by rw [hth], Nat.le_of_eq (by rw [hpr])⟩
    exact List.pair_sublist_insertionSort hab hsub

/-- Witness for C4: two tasks with equal horizon and priority keep their
order through `sorted_tasks`. -/
theorem claim_C4_sorted_tasks_witness :
    List.Sublist
      [Task.mk "x1" "first" .MidTerm .Medium false "",
       Task.mk "x2" "second" .MidTerm .Medium false ""]
      (Context.mk "w"
        [Task.mk "x1" "first" .MidTerm .Medium false "",
         Task.mk "x2" "second" .MidTerm .Medium false ""]).sorted_tasks :=
  claim_C4_sorted_tasks.2.1
    (Context.mk "w"
      [Task.mk "x1" "first" .MidTerm .Medium false "",
       Task.mk "x2" "second" .MidTerm .Medium false ""])
    (Task.mk "x1" "first" .MidTerm .Medium false "")
    (Task.mk "x2" "second" .MidTerm .Medium false "")
    rfl rfl (List.Sublist.refl _)

/-! ## Merge import: handle_import in src/main.rs

The merge branch of `handle_import` walks the imported context map.  A
context whose name is free is inserted directly.  On a name collision the
loop computes a fresh name — `name-imported`, then `name-imported-2`,
`name-imported-3`, … incrementing a counter until the name is unused —
creates that context and moves all imported tasks into it. -/

/-- Decimal digit character with value `n` (`format!` prints the counter in
decimal). -/
def decDigit (n : Nat) : Char := Char.ofNat (48 + n)

/-- Decimal digit list of a natural number, most significant first: the
character sequence `format!` produces for it. -/
def natDigits (n : Nat) : List Char :=
  if _h : n < 10 then [decDigit n]
  else natDigits (n / 10) ++ [decDigit (n % 10)]
termination_by n
decreasing_by exact Nat.div_lt_self (by omega) (by omega)

/-- Decimal string of a natural number. -/
def natToString (n : Nat) : String := String.mk (natDigits n)

theorem decDigit_toNat {n : Nat} (h : n < 10) : (decDigit n).toNat = 48 + n := by
  interval_cases n <;> decide

theorem decDigit_inj {m n : Nat} (hm : m < 10) (hn : n < 10)
    (h : decDigit m = decDigit n) : m = n := by
  have := decDigit_toNat hm
  have := decDigit_toNat hn
  have : (decDigit m).toNat = (decDigit n).toNat := by rw [h]
  omega

theorem natDigits_lt {n : Nat} (h : n < 10) : natDigits n = [decDigit n] := by
  rw [natDigits, dif_pos h]

theorem natDigits_ge {n : Nat} (h : ¬n < 10) :
    natDigits n = natDigits (n / 10) ++ [decDigit (n % 10)] := by
  rw [natDigits, dif_neg h]

theorem natDigits_ne_nil (n : Nat) : natDigits n ≠ [] := by
  by_cases h : n < 10
  · simp [natDigits_lt h]
  · simp [natDigits_ge h]

theorem natDigits_length_pos (n : Nat) : 0 < (natDigits n).length :=
  List.length_pos.mpr (natDigits_ne_nil n)

theorem natDigits_inj : ∀ m n : Nat, natDigits m = natDigits n → m = n := by
  intro m
  induction m using Nat.strong_induction_on with
  | _ m ih =>
    intro n h
    by_cases hm : m < 10 <;> by_cases hn : n < 10
    · rw [natDigits_lt hm, natDigits_lt hn] at h
      exact decDigit_inj hm hn (List.cons_eq_cons.mp h).1
    · rw [natDigits_lt hm, natDigits_ge hn] at h
      have hlen := congrArg List.length h
      have hpos := natDigits_length_pos (n / 10)
      rw [List.length_singleton, List.length_append, List.length_singleton]
        at hlen
      omega
    · rw [natDigits_ge hm, natDigits_lt hn] at h
      have hlen := congrArg List.length h
      have hpos := natDigits_length_pos (m / 10)
      rw [List.length_append, List.length_singleton, List.length_singleton]
        at hlen
      omega
    · rw [natDigits_ge hm, natDigits_ge hn] at h
      have h' := congrArg List.reverse h
      simp only [List.reverse_append, List.reverse_cons, List.reverse_nil,
        List.nil_append, List.cons_append, List.cons_eq_cons] at h'
      have hmod : m % 10 = n % 10 :=
        decDigit_inj (Nat.mod_lt _ (by omega)) (Nat.mod_lt _ (by omega)) h'.1
      have hdiv : m / 10 = n / 10 := by
        have hrev : natDigits (m / 10) = natDigits (n / 10) :=
          List.reverse_injective h'.2
        exact ih (m / 10) (Nat.div_lt_self (by omega) (by omega)) _ hrev
      omega

theorem natToString_inj {m n : Nat} (h : natToString m = natToString n) :
    m = n :=
  natDigits_inj m n (congrArg String.data h)

/-- The candidate name the collision loop of `handle_import` tries at counter
value `c`: `base-imported` initially (counter 1), `base-imported-c` after
`c - 1` further collisions. -/
def candidateName (base : String) (c : Nat) : String :=
  if c = 1 then base ++ "-imported" else base ++ "-imported-" ++ natToString c

theorem natToString_length_pos (n : Nat) : 0 < (natToString n).length := by
  have := natDigits_ne_nil n
  cases hd : natDigits n with
  | nil => exact absurd hd this
  | cons c cs => simp [natToString, String.length, hd]

theorem candidateName_inj (base : String) {c₁ c₂ : Nat}
    (h : candidateName base c₁ = candidateName base c₂) :
    c₁ = c₂ := by
  unfold candidateName at h
  have l9 : ("-imported" : String).length = 9 := by decide
  have l10 : ("-imported-" : String).length = 10 := by decide
  by_cases e₁ : c₁ = 1 <;> by_cases e₂ : c₂ = 1
  · omega
  · rw [if_pos e₁, if_neg e₂] at h
    have hlen := congrArg String.length h
    have hpos := natToString_length_pos c₂
    rw [String.length_append, String.length_append, String.length_append,
      l9, l10] at hlen
    omega
  · rw [if_neg e₁, if_pos e₂] at h
    have hlen := congrArg String.length h
    have hpos := natToString_length_pos c₁
    rw [String.length_append, String.length_append, String.length_append,
      l9, l10] at hlen
    omega
  · rw [if_neg e₁, if_neg e₂] at h
    have hd := congrArg String.data h
    simp only [String.data_append, List.append_assoc] at hd
    have hd' :=
      List.append_cancel_left (List.append_cancel_left hd)
    exact natDigits_inj c₁ c₂ hd'

/-- The collision loop of `handle_import`: starting from the given counter,
try candidate names until one is not a key of the live map.  The source loop
has no bound; the fuel given by `uniqueImportName` below is enough to reach a
free name, so the embedding computes the same name the loop finds. -/
def uniqueNameAux (l : List (String × Context)) (base : String) :
    Nat → Nat → String
  | counter, 0 => candidateName base counter
  | counter, fuel + 1 =>
    if containsKey l (candidateName base counter) then
      uniqueNameAux l base (counter + 1) fuel
    else candidateName base counter

/-- The fresh name `handle_import` gives a colliding imported context. -/
def uniqueImportName (l : List (String × Context)) (base : String) : String :=
  uniqueNameAux l base 1 (l.length + 1)

theorem uniqueNameAux_free {l : List (String × Context)} {base : String} :
    ∀ fuel counter,
      (∃ i, i < fuel ∧ containsKey l (candidateName base (counter + i)) = false) →
      containsKey l (uniqueNameAux l base counter fuel) = false := by
  intro fuel
  induction fuel with
  | zero =>
    rintro counter ⟨i, hi, _⟩
    omega
  | succ fuel ih =>
    rintro counter ⟨i, hi, hfree⟩
    rw [uniqueNameAux]
    by_cases h : containsKey l (candidateName base counter)
    · rw [if_pos h]
      apply ih
      have hi0 : i ≠ 0 := by
        intro hz
        rw [hz, Nat.add_zero] at hfree
        rw [hfree] at h
        exact Bool.false_ne_true h
      refine ⟨i - 1, by omega, ?_⟩
      have : counter + 1 + (i - 1) = counter + i := by omega
      rw [this]
      exact hfree
    · rw [if_neg h]
      simpa using h

/-- Pigeonhole: among the first `l.length + 1` candidate names at least one
is not a key of `l`. -/
theorem exists_free_candidate (l : List (String × Context)) (base : String) :
    ∃ i, i < l.length + 1 ∧
      containsKey l (candidateName base (1 + i)) = false := by
  by_contra hall
  push_neg at hall
  have hall' : ∀ i, i < l.length + 1 →
      candidateName base (1 + i) ∈ l.map Prod.fst := by
    intro i hi
    have hb : containsKey l (candidateName base (1 + i)) = true := by
      have := hall i hi
      revert this
      cases containsKey l (candidateName base (1 + i)) <;> simp
    rcases containsKey_iff.mp hb with ⟨p, hp, hk⟩
    exact hk ▸ List.mem_map_of_mem Prod.fst hp
  have hnodup : ((List.range (l.length + 1)).map
      fun i => candidateName base (1 + i)).Nodup := by
    refine List.Nodup.map_on ?_ (List.nodup_range _)
    intro x _ y _ hxy
    have : 1 + x = 1 + y := candidateName_inj base hxy
    omega
  have hsub : ((List.range (l.length + 1)).map
      fun i => candidateName base (1 + i)) ⊆ l.map Prod.fst := by
    intro x hx
    rcases List.mem_map.mp hx with ⟨i, hi, rfl⟩
    exact hall' i (List.mem_range.mp hi)
  have hsp := List.subperm_of_subset hnodup hsub
  have hle := hsp.length_le
  have hL : ((List.range (l.length + 1)).map
      fun i => candidateName base (1 + i)).length = l.length + 1 := by simp
  have hM : (l.map Prod.fst).length = l.length := by simp
  omega

theorem uniqueImportName_free (l : List (String × Context)) (base : String) :
    containsKey l (uniqueImportName l base) = false := by
  apply uniqueNameAux_free
  exact exists_free_candidate l base

/-! ### The merge loop itself -/

/-- One iteration of the merge loop of `handle_import`, `main.rs`, applied to
the imported binding `(context_name, context)`: on a name collision create
the uniquely renamed context and move all imported tasks into it (the `?` on
`create_context` propagates its error); otherwise insert the imported
context directly. -/
def mergeStep (m : ContextManager) (context_name : String) (context : Context) :
    Except AppError ContextManager :=
  if containsKey m.contexts context_name then
    match m.create_context (uniqueImportName m.contexts context_name) with
    | (.error e, _) => .error e
    | (.ok _, m1) =>
      .ok { m1 with
        contexts := updateValue m1.contexts
          (uniqueImportName m.contexts context_name)
          fun c => context.tasks.foldl Context.add_task c }
  else
    .ok { m with contexts := insertKV m.contexts context_name context }

/-- The merge branch of `handle_import`, `main.rs`: fold the merge step over
the imported context bindings (the iteration order of the imported
`HashMap` is arbitrary, so the list order is universally quantified in the
theorems below). -/
def mergeImport (m : ContextManager) :
    List (String × Context) → Except AppError ContextManager
  | [] => .ok m
  | p :: rest =>
    match mergeStep m p.1 p.2 with
    | .error e => .error e
    | .ok m1 => mergeImport m1 rest

/-- `handle_import` with `merge = true`, `main.rs`: merge the contexts of the
successfully imported manager into the live manager.  The imported manager's
`active_context` field is not consulted. -/
def handleImportMerge (live imported : ContextManager) :
    Except AppError ContextManager :=
  mergeImport live imported.contexts

/-! ### Supporting lemmas for the merge -/

theorem containsKey_cons {p : String × Context} {rest : List (String × Context)}
    {k : String} :
    containsKey (p :: rest) k = (decide (p.1 = k) || containsKey rest k) := by
  simp [containsKey]

theorem foldl_add_task : ∀ (ts : List Task) (c : Context),
    ts.foldl Context.add_task c = Context.mk c.name (c.tasks ++ ts) := by
  intro ts
  induction ts with
  | nil => intro c; cases c; simp
  | cons t ts ih =>
    intro c
    rw [List.foldl_cons, ih]
    simp [Context.add_task]

theorem updateValue_append_fresh {l : List (String × Context)} {k : String}
    (h : containsKey l k = false) (c : Context) (f : Context → Context) :
    updateValue (l ++ [(k, c)]) k f = l ++ [(k, f c)] := by
  induction l with
  | nil => simp [updateValue]
  | cons p rest ih =>
    rw [containsKey_cons] at h
    have hp : ¬p.1 = k := by
      intro hk
      simp [hk] at h
    have hr : containsKey rest k = false := by
      simp [hp] at h
      exact h
    simp only [List.cons_append, updateValue, if_neg hp]
    exact congrArg (List.cons p) (ih hr)

theorem insertKV_fresh {l : List (String × Context)} {k : String}
    (h : containsKey l k = false) (v : Context) :
    insertKV l k v = l ++ [(k, v)] := by
  induction l with
  | nil => simp [insertKV]
  | cons p rest ih =>
    rw [containsKey_cons] at h
    have hp : ¬p.1 = k := by
      intro hk
      simp [hk] at h
    have hr : containsKey rest k = false := by
      simp [hp] at h
      exact h
    simp only [List.cons_append, insertKV, if_neg hp]
    exact congrArg (List.cons p) (ih hr)

theorem lookupKey_append_left {l l₂ : List (String × Context)} {k : String}
    (h : containsKey l k = true) :
    lookupKey (l ++ l₂) k = lookupKey l k := by
  induction l with
  | nil => simp [containsKey] at h
  | cons p rest ih =>
    by_cases hp : p.1 = k
    · simp [lookupKey, hp]
    · rw [containsKey_cons] at h
      have hr : containsKey rest k = true := by
        simp [hp] at h
        exact h
      simp only [List.cons_append, lookupKey, if_neg hp]
      exact ih hr

theorem lookupKey_append_right {l l₂ : List (String × Context)} {k : String}
    (h : containsKey l k = false) :
    lookupKey (l ++ l₂) k = lookupKey l₂ k := by
  induction l with
  | nil => simp
  | cons p rest ih =>
    rw [containsKey_cons] at h
    have hp : ¬p.1 = k := by
      intro hk
      simp [hk] at h
    have hr : containsKey rest k = false := by
      simp [hp] at h
      exact h
    simp only [List.cons_append, lookupKey, if_neg hp]
    exact ih hr

theorem uniqueImportName_eq_one {l : List (String × Context)} {base : String}
    (h : containsKey l (candidateName base 1) = false) :
    uniqueImportName l base = candidateName base 1 := by
  unfold uniqueImportName
  rw [uniqueNameAux, if_neg (by simp [h])]

theorem uniqueImportName_eq_two {l : List (String × Context)} {base : String}
    (h1 : containsKey l (candidateName base 1) = true)
    (h2 : containsKey l (candidateName base 2) = false) :
    uniqueImportName l base = candidateName base 2 := by
  unfold uniqueImportName
  have hne : l ≠ [] := by
    intro hz
    rw [hz] at h1
    simp [containsKey] at h1
  have hlen : 0 < l.length := List.length_pos.mpr hne
  obtain ⟨k, hk⟩ : ∃ k, l.length = k + 1 := ⟨l.length - 1, by omega⟩
  rw [hk]
  rw [uniqueNameAux, if_pos (by simp [h1])]
  rw [uniqueNameAux, if_neg (by simp [h2])]

/-- Evaluation of the merge step on a name collision: the uniquely renamed
context is created and receives all imported tasks; the error path of
`create_context` is unreachable because the chosen name is free. -/
theorem mergeStep_collision {m : ContextManager} {name : String} {ctx : Context}
    (h : containsKey m.contexts name = true) :
    mergeStep m name ctx = .ok { m with
      contexts := m.contexts ++
        [(uniqueImportName m.contexts name,
          Context.mk (uniqueImportName m.contexts name) ctx.tasks)] } := by
  have hfree := uniqueImportName_free m.contexts name
  have hcc : m.create_context (uniqueImportName m.contexts name) =
      (.ok (), { m with contexts := m.contexts ++
        [(uniqueImportName m.contexts name,
          Context.new (uniqueImportName m.contexts name))] }) := by
    unfold ContextManager.create_context
    rw [if_neg (by simp [hfree])]
  have hred : mergeStep m name ctx = .ok
      { contexts := updateValue
          (m.contexts ++ [(uniqueImportName m.contexts name,
            Context.new (uniqueImportName m.contexts name))])
          (uniqueImportName m.contexts name)
          fun c => ctx.tasks.foldl Context.add_task c
        active_context := m.active_context } := by
    unfold mergeStep
    rw [if_pos (by simp [h]), hcc]
  rw [hred, updateValue_append_fresh hfree, foldl_add_task]
  simp [Context.new]

/-- Evaluation of the merge step when the imported name is free: the context
is inserted directly. -/
theorem mergeStep_fresh {m : ContextManager} {name : String} {ctx : Context}
    (h : containsKey m.contexts name = false) :
    mergeStep m name ctx =
      .ok { m with contexts := m.contexts ++ [(name, ctx)] } := by
  unfold mergeStep
  rw [if_neg (by simp [h]), insertKV_fresh h]

theorem mergeStep_active {m : ContextManager} {name : String} {ctx : Context}
    {m1 : ContextManager} (h : mergeStep m name ctx = .ok m1) :
    m1.active_context = m.active_context := by
  by_cases hc : containsKey m.contexts name
  · rw [mergeStep_collision hc] at h
    injection h with h
    rw [← h]
  · rw [mergeStep_fresh (by simpa using hc)] at h
    injection h with h
    rw [← h]

theorem mergeImport_active : ∀ (l : List (String × Context))
    (m r : ContextManager), mergeImport m l = .ok r →
    r.active_context = m.active_context := by
  intro l
  induction l with
  | nil =>
    intro m r h
    rw [mergeImport] at h
    injection h with h
    rw [← h]
  | cons p rest ih =>
    intro m r h
    rw [mergeImport] at h
    cases hms : mergeStep m p.1 p.2 with
    | error e => rw [hms] at h; simp at h
    | ok m1 =>
      rw [hms] at h
      exact (ih m1 r h).trans (mergeStep_active hms)

/-! ## Claim C8: merge-mode import collision renaming -/

/-- **C8.** Merging an imported context named `work` into a live manager that
already has a `work` context creates a new context under the fresh name
chosen by the collision loop — `work-imported` when that name is free,
`work-imported-2` when `work-imported` is taken and `work-imported-2` is
free — holding all imported tasks in order; the chosen name is never an
existing key, the live `work` context is left untouched, and an imported
context whose name is free is inserted directly with its tasks. -/
theorem claim_C8_merge_collision_rename :
    (∀ (live : ContextManager) (imported : Context),
      containsKey live.contexts "work" = true →
      containsKey live.contexts (uniqueImportName live.contexts "work") = false ∧
      (containsKey live.contexts "work-imported" = false →
        uniqueImportName live.contexts "work" = "work-imported") ∧
      (containsKey live.contexts "work-imported" = true →
        containsKey live.contexts "work-imported-2" = false →
        uniqueImportName live.contexts "work" = "work-imported-2") ∧
      mergeImport live [("work", imported)] =
        .ok { live with contexts := live.contexts ++
          [(uniqueImportName live.contexts "work",
            Context.mk (uniqueImportName live.contexts "work")
              imported.tasks)] } ∧
      lookupKey (live.contexts ++
          [(uniqueImportName live.contexts "work",
            Context.mk (uniqueImportName live.contexts "work")
              imported.tasks)])
          (uniqueImportName live.contexts "work") =
        some (Context.mk (uniqueImportName live.contexts "work")
          imported.tasks) ∧
      lookupKey (live.contexts ++
          [(uniqueImportName live.contexts "work",
            Context.mk (uniqueImportName live.contexts "work")
              imported.tasks)]) "work" =
        lookupKey live.contexts "work") ∧
    (∀ (live : ContextManager) (name : String) (imported : Context),
      containsKey live.contexts name = false →
      mergeImport live [(name, imported)] =
        .ok { live with contexts := live.contexts ++ [(name, imported)] }) := by
  have hnts2 : natToString 2 = "2" := by
    rw [natToString, natDigits_lt (by omega)]
    decide
  have hc2w : candidateName "work" 2 = "work-imported-2" := by
    rw [candidateName, if_neg (by omega), hnts2]
    decide
  have hc1w : candidateName "work" 1 = "work-imported" := by
    rw [candidateName, if_pos rfl]
    decide
  constructor
  · intro live imported h
    have hfree := uniqueImportName_free live.contexts "work"
    refine ⟨hfree, ?_, ?_, ?_, ?_, ?_⟩
    · intro h1
      rw [← hc1w] at h1 ⊢
      exact uniqueImportName_eq_one h1
    · intro h1 h2
      rw [← hc1w] at h1
      rw [← hc2w] at h2 ⊢
      exact uniqueImportName_eq_two h1 h2
    · simp only [mergeImport]
      rw [mergeStep_collision h]
    · rw [lookupKey_append_right hfree]
      simp [lookupKey]
    · exact lookupKey_append_left h
  · intro live name imported h
    simp only [mergeImport]
    rw [mergeStep_fresh h]

/-- Witness for C8: a live manager holding `work` and `work-imported`
receives a colliding imported `work` context under `work-imported-2`. -/
theorem claim_C8_merge_collision_rename_witness :
    containsKey
        (ContextManager.mk
          [("work", Context.mk "work" []),
           ("work-imported", Context.mk "work-imported" [])] "work").contexts
        (uniqueImportName
          (ContextManager.mk
            [("work", Context.mk "work" []),
             ("work-imported", Context.mk "work-imported" [])] "work").contexts
          "work") = false ∧
      (containsKey
          (ContextManager.mk
            [("work", Context.mk "work" []),
             ("work-imported", Context.mk "work-imported" [])] "work").contexts
          "work-imported" = false →
        uniqueImportName
          (ContextManager.mk
            [("work", Context.mk "work" []),
             ("work-imported", Context.mk "work-imported" [])] "work").contexts
          "work" = "work-imported") ∧
      (containsKey
          (ContextManager.mk
            [("work", Context.mk "work" []),
             ("work-imported", Context.mk "work-imported" [])] "work").contexts
          "work-imported" = true →
        containsKey
          (ContextManager.mk
            [("work", Context.mk "work" []),
             ("work-imported", Context.mk "work-imported" [])] "work").contexts
          "work-imported-2" = false →
        uniqueImportName
          (ContextManager.mk
            [("work", Context.mk "work" []),
             ("work-imported", Context.mk "work-imported" [])] "work").contexts
          "work" = "work-imported-2") ∧
      mergeImport
          (ContextManager.mk
            [("work", Context.mk "work" []),
             ("work-imported", Context.mk "work-imported" [])] "work")
          [("work", Context.mk "work"
            [Task.mk "w1" "ship it" .ShortTerm .High false ""])] =
        .ok { ContextManager.mk
            [("work", Context.mk "work" []),
             ("work-imported", Context.mk "work-imported" [])] "work" with
          contexts :=
            (ContextManager.mk
              [("work", Context.mk "work" []),
               ("work-imported", Context.mk "work-imported" [])] "work").contexts
            ++ [(uniqueImportName
                  (ContextManager.mk
                    [("work", Context.mk "work" []),
                     ("work-imported", Context.mk "work-imported" [])]
                    "work").contexts "work",
                Context.mk
                  (uniqueImportName
                    (ContextManager.mk
                      [("work", Context.mk "work" []),
                       ("work-imported", Context.mk "work-imported" [])]
                      "work").contexts "work")
                  [Task.mk "w1" "ship it" .ShortTerm .High false ""])] } ∧
      lookupKey
          ((ContextManager.mk
            [("work", Context.mk "work" []),
             ("work-imported", Context.mk "work-imported" [])] "work").contexts
          ++ [(uniqueImportName
                (ContextManager.mk
                  [("work", Context.mk "work" []),
                   ("work-imported", Context.mk "work-imported" [])]
                  "work").contexts "work",
              Context.mk
                (uniqueImportName
                  (ContextManager.mk
                    [("work", Context.mk "work" []),
                     ("work-imported", Context.mk "work-imported" [])]
                    "work").contexts "work")
                [Task.mk "w1" "ship it" .ShortTerm .High false ""])])
          (uniqueImportName
            (ContextManager.mk
              [("work", Context.mk "work" []),
               ("work-imported", Context.mk "work-imported" [])]
              "work").contexts "work") =
        some (Context.mk
          (uniqueImportName
            (ContextManager.mk
              [("work", Context.mk "work" []),
               ("work-imported", Context.mk "work-imported" [])]
              "work").contexts "work")
          [Task.mk "w1" "ship it" .ShortTerm .High false ""]) ∧
      lookupKey
          ((ContextManager.mk
            [("work", Context.mk "work" []),
             ("work-imported", Context.mk "work-imported" [])] "work").contexts
          ++ [(uniqueImportName
                (ContextManager.mk
                  [("work", Context.mk "work" []),
                   ("work-imported", Context.mk "work-imported" [])]
                  "work").contexts "work",
              Context.mk
                (uniqueImportName
                  (ContextManager.mk
                    [("work", Context.mk "work" []),
                     ("work-imported", Context.mk "work-imported" [])]
                    "work").contexts "work")
                [Task.mk "w1" "ship it" .ShortTerm .High false ""])]) "work" =
        lookupKey
          (ContextManager.mk
            [("work", Context.mk "work" []),
             ("work-imported", Context.mk "work-imported" [])] "work").contexts
          "work" :=
  claim_C8_merge_collision_rename.1
    (ContextManager.mk
      [("work", Context.mk "work" []),
       ("work-imported", Context.mk "work-imported" [])] "work")
    (Context.mk "work" [Task.mk "w1" "ship it" .ShortTerm .High false ""])
    (by decide)

/-! ## Claim C9: merge never changes the live active context -/

/-- **C9.** Merge-mode import leaves the live manager's `active_context`
untouched, for every live manager and every imported manager, and the
imported manager's `active_context` field is ignored: the merge result only
depends on the imported context map. -/
theorem claim_C9_merge_preserves_active :
    (∀ (live imported r : ContextManager),
      handleImportMerge live imported = .ok r →
      r.active_context = live.active_context) ∧
    (∀ (live imported1 imported2 : ContextManager),
      imported1.contexts = imported2.contexts →
      handleImportMerge live imported1 = handleImportMerge live imported2) := by
  constructor
  · intro live imported r h
    exact mergeImport_active imported.contexts live r h
  · intro live imported1 imported2 h
    unfold handleImportMerge
    rw [h]

/-- Witness for C9: merging a one-context import whose active context is
`alpha` into the fresh manager keeps `default` active. -/
theorem claim_C9_merge_preserves_active_witness :
    (ContextManager.mk
        [("default", Context.new "default"), ("alpha", Context.new "alpha")]
        "default").active_context = ContextManager.new.active_context :=
  claim_C9_merge_preserves_active.1 ContextManager.new
    (ContextManager.mk [("alpha", Context.new "alpha")] "alpha")
    (ContextManager.mk
      [("default", Context.new "default"), ("alpha", Context.new "alpha")]
      "default")
    (by decide)

end RustTodo
